import Mathlib

/-!
# Verification of the transcriber pipeline core

Shallow embedding of the transcription pipeline of `claymore666/transcriber`
(Rust) together with proofs about it.

Embedded components:

* the pure sample-processing functions `remove_dc_offset`, `normalize_peak`,
  `trim_silence` from `src/transcriber/src/audio.rs` (sample buffers are
  lists of exact rationals; the Rust code works on `f32`, here float
  arithmetic is idealised as exact rational arithmetic);
* the model-cache functions `ensure_model` / `download_model` from
  `src/transcriber/src/model.rs`, with the filesystem as an explicit map
  from paths to file sizes and the RAII `PartFileGuard` as an explicit
  cleanup step on every exit path;
* the transcript data model and formatters from `src/transkribo/src/types.rs`,
  with IEEE double-precision values modelled exactly (a rational value or NaN)
  and round-to-nearest-even rounding implemented on rationals;
* the URL validation from `src/transkribo/src/download.rs`.
-/

/- ### IEEE double-precision arithmetic, modelled on `ℚ`

The timestamp formatters multiply an `f64` by `1000.0` and cast to `u64`.
To settle the formatting claims we model binary64 values exactly: a finite
double is its exact rational value, and rounding (used for decimal literals
and for the `* 1000.0` product) is round-to-nearest, ties-to-even, with the
subnormal range handled by clamping the scale at `2^(-1074)`.  Infinities are
not given a separate constructor: a product that overflows binary64 behaves,
under the saturating `as u64` cast, exactly like any other value `≥ 2^64`,
so keeping the huge rational is observationally equivalent. -/

/-- Fuel-driven base-2 logarithm on `ℕ` (floor), kernel-reducible. -/
def natLog2Aux : ℕ → ℕ → ℕ
  | 0, _ => 0
  | fuel + 1, n => if 2 ≤ n then natLog2Aux fuel (n / 2) + 1 else 0

/-- `natLog2 n = ⌊log₂ n⌋` for `n ≥ 1` (and `0` for `n = 0`). -/
def natLog2 (n : ℕ) : ℕ := natLog2Aux n n

/-- Round a rational to the nearest integer, ties to even. -/
def roundHalfEven (q : ℚ) : ℤ :=
  let f := ⌊q⌋
  let r := q - f
  if r < 1 / 2 then f
  else if 1 / 2 < r then f + 1
  else if f % 2 = 0 then f else f + 1

/-- `⌊log₂ q⌋` for a positive rational `q`, via the bit lengths of the
numerator and denominator. -/
def qlog2 (q : ℚ) : ℤ :=
  let c : ℤ := (natLog2 q.num.natAbs : ℤ) - (natLog2 q.den : ℤ)
  if (2 : ℚ) ^ c ≤ q then c else c - 1

/-- Round a positive rational to the nearest binary64 value
(round-to-nearest, ties-to-even; subnormals via the `2^(-1074)` scale). -/
def roundPosF64 (q : ℚ) : ℚ :=
  let scale : ℤ := max (qlog2 q - 52) (-1074)
  (roundHalfEven (q * (2 : ℚ) ^ (-scale)) : ℚ) * (2 : ℚ) ^ scale

/-- Round a rational to the nearest binary64 value. -/
def roundF64 (q : ℚ) : ℚ :=
  if 0 < q then roundPosF64 q
  else if q < 0 then -roundPosF64 (-q)
  else 0

/-- A binary64 (`f64`) value: NaN, or a finite value given by its exact
rational. -/
inductive F64 where
  | nan : F64
  | val (q : ℚ) : F64
deriving DecidableEq

/-- The binary64 value of a decimal literal `num / den`, i.e. the nearest
double. -/
def F64.ofDecimal (num : ℤ) (den : ℕ) : F64 :=
  .val (roundF64 ((num : ℚ) / (den : ℚ)))

/- ### Sample processor (`src/transcriber/src/audio.rs`) -/

/-- `MIN_RMS` from `src/transcriber/src/audio.rs`: below this level the audio
is considered silent/empty. -/
def MIN_RMS : ℚ := 1 / 1000000

/-- Arithmetic mean of a sample buffer (`0` for the empty buffer, because
`q / 0 = 0` in `ℚ`). -/
def meanQ (samples : List ℚ) : ℚ := samples.sum / (samples.length : ℚ)

/-- Peak amplitude: `samples.iter().map(f32::abs).fold(0.0, f32::max)` from
`normalize_peak` in `src/transcriber/src/audio.rs`. -/
def peakQ (samples : List ℚ) : ℚ := (samples.map (fun s => |s|)).foldl max 0

/-- `remove_dc_offset` from `src/transcriber/src/audio.rs`: subtract the
arithmetic mean from every sample when `|mean| > MIN_RMS`; early return on an
empty buffer. -/
def remove_dc_offset (samples : List ℚ) : List ℚ :=
  if samples = [] then samples
  else
    let mean : ℚ := samples.sum / (samples.length : ℚ)
    if MIN_RMS < |mean| then samples.map (fun s => s - mean) else samples

/-- `normalize_peak` from `src/transcriber/src/audio.rs`: when the peak is at
least `MIN_RMS` and differs from `1.0` by more than `0.01`, scale every sample
by `scale = 1.0 / peak`. -/
def normalize_peak (samples : List ℚ) : List ℚ :=
  if samples = [] then samples
  else
    let peak := peakQ samples
    if peak < MIN_RMS then samples
    else if 1 / 100 < |peak - 1| then samples.map (fun s => s * (1 / peak))
    else samples

/- Helper lemmas for the sample processor. -/

theorem sum_map_sub_const (l : List ℚ) (c : ℚ) :
    (l.map (fun s => s - c)).sum = l.sum - (l.length : ℚ) * c := by
  induction l with
  | nil => simp
  | cons x xs ih =>
      simp only [List.map_cons, List.sum_cons, List.length_cons, ih]
      push_cast
      ring

theorem foldl_max_abs_map_mul (l : List ℚ) (c : ℚ) (hc : 0 ≤ c) (a : ℚ) :
    ((l.map (fun s => s * c)).map (fun s => |s|)).foldl max (a * c) =
      ((l.map (fun s => |s|)).foldl max a) * c := by
  induction l generalizing a with
  | nil => simp
  | cons x xs ih =>
      simp only [List.map_cons, List.foldl_cons]
      rw [abs_mul, abs_of_nonneg hc, ← max_mul_of_nonneg _ _ hc, ih]

theorem peakQ_map_mul (l : List ℚ) (c : ℚ) (hc : 0 ≤ c) :
    peakQ (l.map (fun s => s * c)) = peakQ l * c := by
  have h := foldl_max_abs_map_mul l c hc 0
  rw [zero_mul] at h
  simpa [peakQ] using h

theorem peakQ_replicate_zero (n : ℕ) : peakQ (List.replicate n 0) = 0 := by
  induction n with
  | zero => rfl
  | succ m ih =>
      simp only [peakQ, List.replicate_succ, List.map_cons, List.foldl_cons,
        abs_zero, max_self] at ih ⊢
      exact ih

/-- **C5** (`remove_dc_offset`): the operation is a no-op on the empty buffer,
and for every sample buffer the mean of the result is within `1e-5` of zero —
if `|mean| > 1e-6` the exact mean is subtracted (new mean `0`), otherwise the
buffer is untouched and its mean was already at most `1e-6 ≤ 1e-5`. -/
theorem removeDcOffset_mean_small :
    remove_dc_offset [] = [] ∧
    ∀ samples : List ℚ, |meanQ (remove_dc_offset samples)| ≤ 1 / 100000 := by
  refine ⟨rfl, fun samples => ?_⟩
  by_cases hnil : samples = []
  · subst hnil
    simp [remove_dc_offset, meanQ]
  · have hlen : (samples.length : ℚ) ≠ 0 := by
      simpa using fun h => hnil (List.length_eq_zero.mp h)
    unfold remove_dc_offset
    rw [if_neg hnil]
    simp only
    by_cases hmean : MIN_RMS < |samples.sum / (samples.length : ℚ)|
    · rw [if_pos hmean]
      unfold meanQ
      rw [sum_map_sub_const, List.length_map]
      have hc : (samples.length : ℚ) * (samples.sum / (samples.length : ℚ)) =
          samples.sum := by
        field_simp
      rw [hc, sub_self, zero_div, abs_zero]
      norm_num
    · rw [if_neg hmean]
      unfold meanQ
      have h₁ : |samples.sum / (samples.length : ℚ)| ≤ MIN_RMS := le_of_not_lt hmean
      have h₂ : MIN_RMS ≤ 1 / 100000 := by norm_num [MIN_RMS]
      exact h₁.trans h₂

/-- **C4** (`normalize_peak`): for a non-silent buffer (peak at least
`MIN_RMS = 1e-6`) whose peak differs from `1` by more than `0.01`, scaling by
`1/peak` makes the new peak exactly `1`; consequently every non-silent buffer
ends with its peak within `0.01` of `1`; and an all-zero buffer is untouched. -/
theorem normalizePeak_peak_near_one :
    (∀ samples : List ℚ, MIN_RMS ≤ peakQ samples → 1 / 100 < |peakQ samples - 1| →
        peakQ (normalize_peak samples) = 1) ∧
    (∀ samples : List ℚ, MIN_RMS ≤ peakQ samples →
        |peakQ (normalize_peak samples) - 1| ≤ 1 / 100) ∧
    (∀ n : ℕ, normalize_peak (List.replicate n 0) = List.replicate n 0) := by
  have hscale : ∀ samples : List ℚ, MIN_RMS ≤ peakQ samples →
      1 / 100 < |peakQ samples - 1| → peakQ (normalize_peak samples) = 1 := by
    intro samples hpk hfar
    have hnil : samples ≠ [] := by
      intro h
      rw [h] at hpk
      norm_num [peakQ, MIN_RMS] at hpk
    have hpos : 0 < peakQ samples := lt_of_lt_of_le (by norm_num [MIN_RMS]) hpk
    unfold normalize_peak
    rw [if_neg hnil]
    simp only
    rw [if_neg (not_lt.mpr hpk), if_pos hfar]
    rw [peakQ_map_mul samples (1 / peakQ samples) (by positivity)]
    field_simp
  refine ⟨hscale, fun samples hpk => ?_, fun n => ?_⟩
  · by_cases hfar : 1 / 100 < |peakQ samples - 1|
    · rw [hscale samples hpk hfar]
      simp
    · have hnil : samples ≠ [] := by
        intro h
        rw [h] at hpk
        norm_num [peakQ, MIN_RMS] at hpk
      unfold normalize_peak
      rw [if_neg hnil]
      simp only
      rw [if_neg (not_lt.mpr hpk), if_neg hfar]
      exact le_of_not_lt hfar
  · cases n with
    | zero => rfl
    | succ m =>
        unfold normalize_peak
        rw [if_neg (by simp), if_pos]
        rw [peakQ_replicate_zero]
        norm_num [MIN_RMS]

/-- Witness for C4: the one-sample buffer `[1/2]` is non-silent and after
normalization its peak is within `0.01` of `1`. -/
theorem normalizePeak_peak_near_one_witness :
    MIN_RMS ≤ peakQ [(1 : ℚ) / 2] ∧
      |peakQ (normalize_peak [(1 : ℚ) / 2]) - 1| ≤ 1 / 100 := by
  have hp : peakQ [(1 : ℚ) / 2] = 1 / 2 := by norm_num [peakQ, abs_of_nonneg]
  have hge : MIN_RMS ≤ peakQ [(1 : ℚ) / 2] := by rw [hp]; norm_num [MIN_RMS]
  exact ⟨hge, normalizePeak_peak_near_one.2.1 [(1 : ℚ) / 2] hge⟩

/- ### Silence trimming (`trim_silence` in `src/transcriber/src/audio.rs`) -/

/-- `WHISPER_SAMPLE_RATE` (16 kHz) from `src/transcriber/src/audio.rs`. -/
def WHISPER_SAMPLE_RATE : ℕ := 16000

/-- The 10 ms window length `(WHISPER_SAMPLE_RATE as usize / 100).max(1)`
from `trim_silence`. -/
def window_size : ℕ := max (WHISPER_SAMPLE_RATE / 100) 1

/-- Sum of squared samples (the numerator of the mean square in `rms`). -/
def sumSq (l : List ℚ) : ℚ := (l.map (fun s => s * s)).sum

/-- The square of `rms` from `src/transcriber/src/audio.rs`: `rms` is
`sqrt(sum_sq / len)` with `rms([]) = 0`; its square stays rational. -/
def rmsSq (l : List ℚ) : ℚ :=
  if l.length = 0 then 0 else sumSq l / (l.length : ℚ)

/-- The activity test `rms(window) > threshold` of the source, stated on
squares: the linear threshold `db_to_linear(db) = 10^(db/20)` is always
nonnegative, so `sqrt(ms) > t ↔ ms > t²`, which avoids `Real.sqrt` and keeps
the test decidable over `ℚ`. -/
def windowActive (w : List ℚ) (t : ℚ) : Bool := decide (t * t < rmsSq w)

/-- The sliding window starting at sample `i`: Rust's
`samples.windows(window_size)` yields `samples[i .. i + window_size)` for
each `i` (stride 1). -/
def winAt (samples : List ℚ) (i : ℕ) : List ℚ :=
  (samples.drop i).take window_size

/-- How many sliding windows `samples.windows(window_size)` yields; also
`total_windows = len.saturating_sub(window_size - 1)` in `find_last_active`. -/
def numWindows (samples : List ℚ) : ℕ := samples.length + 1 - window_size

/-- `find_first_active` from `src/transcriber/src/audio.rs`: the start index
of the first sliding window whose RMS exceeds the threshold. -/
def find_first_active (samples : List ℚ) (threshold : ℚ) : Option ℕ :=
  (List.range (numWindows samples)).find?
    (fun i => windowActive (winAt samples i) threshold)

/-- `find_last_active` from `src/transcriber/src/audio.rs`: scans the window
start indices downwards and returns `i + window_size` for the last active
window. -/
def find_last_active (samples : List ℚ) (threshold : ℚ) : Option ℕ :=
  ((List.range (numWindows samples)).reverse.find?
    (fun i => windowActive (winAt samples i) threshold)).map
      (fun i => i + window_size)

/-- `trim_silence` from `src/transcriber/src/audio.rs`.  `threshold` is the
*linear* RMS threshold (`db_to_linear(threshold_db) = 10^(db/20)` in the
source — always positive; e.g. `-40 dB` is exactly `1/100`).  `pad_ms`
matches the `u32` argument. -/
def trim_silence (samples : List ℚ) (threshold : ℚ) (pad_ms : ℕ) : List ℚ :=
  if samples = [] then []
  else
    let start := (find_first_active samples threshold).getD 0
    let stop := (find_last_active samples threshold).getD samples.length
    if stop ≤ start then samples
    else
      let pad_samples := WHISPER_SAMPLE_RATE * pad_ms / 1000
      let start2 := start - pad_samples
      let stop2 := min (stop + pad_samples) samples.length
      if start2 = 0 ∧ stop2 = samples.length then samples
      else (samples.drop start2).take (stop2 - start2)

/-- Number of 10 ms chunks in a partition of a buffer of length `n` into
*non-overlapping* windows (last chunk possibly short). -/
def nChunks (n : ℕ) : ℕ := (n + window_size - 1) / window_size

/-- The `i`-th non-overlapping 10 ms chunk. -/
def chunkAt (samples : List ℚ) (i : ℕ) : List ℚ :=
  (samples.drop (i * window_size)).take window_size

/-- The silence-trimming algorithm as the spec words it (for the refinement
comparison): "Partitions the buffer into non-overlapping 10 ms windows …
Scans forward for the first window whose RMS exceeds the threshold … scans
backward for the last such window", with the active span
`[first·ws, (last+1)·ws)` clamped to the buffer and the same fallback and
padding behaviour as the code. -/
def trimSilenceSpec (samples : List ℚ) (threshold : ℚ) (pad_ms : ℕ) : List ℚ :=
  if samples = [] then []
  else
    let chunks := List.range (nChunks samples.length)
    (chunks.find? (fun i => windowActive (chunkAt samples i) threshold)).elim
      samples fun i =>
        (chunks.reverse.find?
            (fun i => windowActive (chunkAt samples i) threshold)).elim
          samples fun j =>
            let start := i * window_size
            let stop := min ((j + 1) * window_size) samples.length
            if stop ≤ start then samples
            else
              let pad_samples := WHISPER_SAMPLE_RATE * pad_ms / 1000
              let start2 := start - pad_samples
              let stop2 := min (stop + pad_samples) samples.length
              if start2 = 0 ∧ stop2 = samples.length then samples
              else (samples.drop start2).take (stop2 - start2)

/- Helper lemmas for `trim_silence`. -/

theorem trim_silence_eq_of_finds_none (s : List ℚ) (t : ℚ) (p : ℕ)
    (hf : find_first_active s t = none) (hl : find_last_active s t = none) :
    trim_silence s t p = s := by
  by_cases hnil : s = []
  · simp [trim_silence, hnil]
  · simp only [trim_silence, hf, hl, Option.getD_none, if_neg hnil]
    have hlen : 0 < s.length := List.length_pos.mpr hnil
    split_ifs with h1 h2
    · rfl
    · rfl
    · exact absurd ⟨Nat.zero_sub _, min_eq_right (Nat.le_add_right _ _)⟩ h2

theorem find_first_active_all (s : List ℚ) (t : ℚ) (hn : 0 < numWindows s)
    (h : ∀ i < numWindows s, windowActive (winAt s i) t = true) :
    find_first_active s t = some 0 := by
  unfold find_first_active
  obtain ⟨m, hm⟩ : ∃ m, numWindows s = m + 1 := ⟨numWindows s - 1, by omega⟩
  rw [hm, List.range_succ_eq_map, List.find?_cons_of_pos]
  exact h 0 hn

theorem find_last_active_all (s : List ℚ) (t : ℚ) (hn : 0 < numWindows s)
    (h : ∀ i < numWindows s, windowActive (winAt s i) t = true) :
    find_last_active s t = some s.length := by
  unfold find_last_active
  obtain ⟨m, hm⟩ : ∃ m, numWindows s = m + 1 := ⟨numWindows s - 1, by omega⟩
  have hms : m + window_size = s.length := by
    have hws : 1 ≤ window_size := le_max_right _ _
    unfold numWindows at hm
    omega
  rw [hm, List.range_succ, List.reverse_append, List.reverse_singleton,
    List.singleton_append, List.find?_cons_of_pos]
  · rw [Option.map_some']
    exact congrArg some hms
  · exact h m (by omega)

theorem trim_silence_slice_decomp (s : List ℚ) (a b : ℕ) :
    ∃ l r, l ++ (s.drop a).take b ++ r = s :=
  ⟨s.take a, (s.drop a).drop b, by
    rw [List.append_assoc, List.take_append_drop, List.take_append_drop]⟩

/-- **C3 (amended)** (`trim_silence`): the search runs over *overlapping*
sliding windows (stride 1), not a partition into non-overlapping windows.
Behaviour proved here: the empty buffer gives an empty result; a buffer none
of whose windows is active (all silent — includes buffers shorter than one
window) is returned unchanged; a buffer all of whose windows are active
(fully active) is returned unchanged; and the result is always a contiguous
slice of the input. -/
theorem trimSilence_behavior :
    (∀ (t : ℚ) (p : ℕ), trim_silence [] t p = []) ∧
    (∀ (s : List ℚ) (t : ℚ) (p : ℕ),
        (∀ i < numWindows s, windowActive (winAt s i) t = false) →
        trim_silence s t p = s) ∧
    (∀ (s : List ℚ) (t : ℚ) (p : ℕ),
        (∀ i < numWindows s, windowActive (winAt s i) t = true) →
        trim_silence s t p = s) ∧
    (∀ (s : List ℚ) (t : ℚ) (p : ℕ),
        ∃ l r, l ++ trim_silence s t p ++ r = s) := by
  refine ⟨fun t p => by simp [trim_silence], ?_, ?_, ?_⟩
  · intro s t p h
    have hf : find_first_active s t = none := by
      apply List.find?_eq_none.mpr
      intro i hi
      rw [List.mem_range] at hi
      simp [h i hi]
    have hl : find_last_active s t = none := by
      unfold find_last_active
      rw [List.find?_eq_none.mpr, Option.map_none']
      intro i hi
      rw [List.mem_reverse, List.mem_range] at hi
      simp [h i hi]
    exact trim_silence_eq_of_finds_none s t p hf hl
  · intro s t p h
    by_cases hn : 0 < numWindows s
    · have hf := find_first_active_all s t hn h
      have hl := find_last_active_all s t hn h
      by_cases hnil : s = []
      · simp [trim_silence, hnil]
      · simp only [trim_silence, hf, hl, Option.getD_some, if_neg hnil]
        have hlen : 0 < s.length := List.length_pos.mpr hnil
        split_ifs with h1 h2
        · rfl
        · rfl
        · exact absurd ⟨Nat.zero_sub _, min_eq_right (Nat.le_add_right _ _)⟩ h2
    · have hf : find_first_active s t = none := by
        unfold find_first_active
        have : numWindows s = 0 := by omega
        rw [this]
        rfl
      have hl : find_last_active s t = none := by
        unfold find_last_active
        have : numWindows s = 0 := by omega
        rw [this]
        rfl
      exact trim_silence_eq_of_finds_none s t p hf hl
  · intro s t p
    by_cases hnil : s = []
    · exact ⟨[], [], by simp [trim_silence, hnil]⟩
    · simp only [trim_silence, if_neg hnil]
      split_ifs with h1 h2
      · exact ⟨[], [], by simp⟩
      · exact ⟨[], [], by simp⟩
      · exact trim_silence_slice_decomp s _ _

theorem sumSq_replicate_zero (n : ℕ) : sumSq (List.replicate n (0 : ℚ)) = 0 := by
  induction n with
  | zero => rfl
  | succ m ih => simp [sumSq, List.replicate_succ]

theorem windowActive_replicate_zero (n : ℕ) (t : ℚ) (ht : 0 ≤ t) :
    windowActive (List.replicate n (0 : ℚ)) t = false := by
  have h0 : rmsSq (List.replicate n (0 : ℚ)) = 0 := by
    simp only [rmsSq, sumSq_replicate_zero, List.length_replicate, zero_div]
    split_ifs <;> rfl
  simp only [windowActive, h0]
  exact decide_eq_false (not_lt.mpr (mul_nonneg ht ht))

/-- Witness for C3: a 10 ms all-silent buffer (a single all-zero window, at
the `-40 dB` linear threshold `1/100`) is returned unchanged. -/
theorem trimSilence_behavior_witness :
    trim_silence (List.replicate 160 (0 : ℚ)) (1 / 100) 50 =
      List.replicate 160 (0 : ℚ) := by
  apply trimSilence_behavior.2.1
  intro i hi
  have hn : numWindows (List.replicate 160 (0 : ℚ)) = 1 := by
    simp [numWindows, window_size, WHISPER_SAMPLE_RATE]
  rw [hn] at hi
  have hi0 : i = 0 := by omega
  subst hi0
  have hw : winAt (List.replicate 160 (0 : ℚ)) 0 = List.replicate 160 (0 : ℚ) := by
    rw [winAt, List.drop_zero, List.take_replicate]
    norm_num [window_size, WHISPER_SAMPLE_RATE]
  rw [hw]
  exact windowActive_replicate_zero 160 (1 / 100) (by norm_num)

/- Concrete separation of the sliding-window code from the spec's
non-overlapping-window reading. -/

theorem sumSq_append (a b : List ℚ) : sumSq (a ++ b) = sumSq a + sumSq b := by
  simp [sumSq]

/-- 10 ms of silence followed by a single loud sample. -/
def cexBuffer : List ℚ := List.replicate 160 0 ++ [1]

theorem cexBuffer_length : cexBuffer.length = 161 := by simp [cexBuffer]

theorem window_size_eq : window_size = 160 := by
  norm_num [window_size, WHISPER_SAMPLE_RATE]

theorem cex_numWindows : numWindows cexBuffer = 2 := by
  rw [numWindows, cexBuffer_length, window_size_eq]

theorem cex_win0 : winAt cexBuffer 0 = List.replicate 160 0 := by
  rw [winAt, List.drop_zero, window_size_eq, cexBuffer]
  exact List.take_left' (by simp)

theorem cex_win1 : winAt cexBuffer 1 = List.replicate 159 0 ++ [1] := by
  have hdrop : cexBuffer.drop 1 = List.replicate 159 0 ++ [1] := by
    simp [cexBuffer, List.replicate_succ]
  rw [winAt, hdrop, window_size_eq]
  exact List.take_of_length_le (by simp)

theorem cex_act0 : windowActive (winAt cexBuffer 0) ((100 : ℚ)⁻¹) = false := by
  rw [cex_win0]
  exact windowActive_replicate_zero 160 _ (by norm_num)

theorem cex_act1 : windowActive (winAt cexBuffer 1) ((100 : ℚ)⁻¹) = true := by
  rw [cex_win1]
  have hr : rmsSq (List.replicate 159 0 ++ [1]) = 1 / 160 := by
    rw [rmsSq]
    rw [if_neg (by simp)]
    rw [sumSq_append, sumSq_replicate_zero]
    norm_num [sumSq]
  rw [windowActive, hr]
  exact decide_eq_true (by norm_num)

theorem cex_find_first : find_first_active cexBuffer ((100 : ℚ)⁻¹) = some 1 := by
  rw [find_first_active, cex_numWindows]
  have h2 : List.range 2 = [0, 1] := rfl
  rw [h2, List.find?_cons_of_neg _ (by simp [cex_act0]),
    List.find?_cons_of_pos _ (by simp [cex_act1])]

theorem cex_find_last : find_last_active cexBuffer ((100 : ℚ)⁻¹) = some 161 := by
  rw [find_last_active, cex_numWindows]
  have h2 : (List.range 2).reverse = [1, 0] := rfl
  rw [h2, List.find?_cons_of_pos _ (by simp [cex_act1]), Option.map_some',
    window_size_eq]

theorem cex_code_result :
    trim_silence cexBuffer ((100 : ℚ)⁻¹) 0 = List.replicate 159 0 ++ [1] := by
  have hne : cexBuffer ≠ [] := by simp [cexBuffer]
  have hdrop : cexBuffer.drop 1 = List.replicate 159 0 ++ [1] := by
    simp [cexBuffer, List.replicate_succ]
  simp only [trim_silence, if_neg hne, cex_find_first, cex_find_last,
    Option.getD_some, cexBuffer_length]
  rw [if_neg (by norm_num), if_neg (by norm_num [WHISPER_SAMPLE_RATE])]
  simp only [WHISPER_SAMPLE_RATE, Nat.mul_zero, Nat.zero_div, Nat.sub_zero,
    Nat.add_zero, min_self]
  rw [hdrop]
  have h160 : (161 : ℕ) - 1 = 160 := rfl
  rw [h160]
  exact List.take_of_length_le (by simp)

theorem cex_nChunks : nChunks 161 = 2 := by
  norm_num [nChunks, window_size, WHISPER_SAMPLE_RATE]

theorem cex_chunk0 : chunkAt cexBuffer 0 = List.replicate 160 0 := by
  rw [chunkAt, Nat.zero_mul, List.drop_zero, window_size_eq, cexBuffer]
  exact List.take_left' (by simp)

theorem drop_length_append {α : Type} (l₁ l₂ : List α) (n : ℕ)
    (h : l₁.length = n) : (l₁ ++ l₂).drop n = l₂ := by
  subst h
  exact List.drop_left l₁ l₂

theorem cex_chunk1 : chunkAt cexBuffer 1 = [1] := by
  rw [chunkAt, window_size_eq, Nat.one_mul, cexBuffer,
    drop_length_append _ _ _ (by simp)]
  exact List.take_of_length_le (by simp)

theorem cex_cact0 : windowActive (chunkAt cexBuffer 0) ((100 : ℚ)⁻¹) = false := by
  rw [cex_chunk0]
  exact windowActive_replicate_zero 160 _ (by norm_num)

theorem cex_cact1 : windowActive (chunkAt cexBuffer 1) ((100 : ℚ)⁻¹) = true := by
  rw [cex_chunk1]
  have hr : rmsSq [(1 : ℚ)] = 1 := by
    rw [rmsSq, if_neg (by simp)]
    norm_num [sumSq]
  rw [windowActive, hr]
  exact decide_eq_true (by norm_num)

theorem cex_spec_result :
    trimSilenceSpec cexBuffer ((100 : ℚ)⁻¹) 0 = [1] := by
  have hne : cexBuffer ≠ [] := by simp [cexBuffer]
  have hdrop160 : cexBuffer.drop 160 = [1] := by
    rw [cexBuffer, drop_length_append _ _ _ (by simp)]
  have hfind1 : (List.range (nChunks 161)).find?
      (fun i => windowActive (chunkAt cexBuffer i) ((100 : ℚ)⁻¹)) = some 1 := by
    rw [cex_nChunks]
    have h2 : List.range 2 = [0, 1] := rfl
    rw [h2, List.find?_cons_of_neg _ (by simp [cex_cact0]),
      List.find?_cons_of_pos _ (by simp [cex_cact1])]
  have hfind2 : ((List.range (nChunks 161)).reverse.find?
      (fun i => windowActive (chunkAt cexBuffer i) ((100 : ℚ)⁻¹))) = some 1 := by
    rw [cex_nChunks]
    have h2 : (List.range 2).reverse = [1, 0] := rfl
    rw [h2, List.find?_cons_of_pos _ (by simp [cex_cact1])]
  unfold trimSilenceSpec
  rw [if_neg hne]
  simp only [cexBuffer_length, hfind1, hfind2, Option.elim_some,
    window_size_eq]
  rw [if_neg (by norm_num), if_neg (by norm_num [WHISPER_SAMPLE_RATE])]
  simp only [WHISPER_SAMPLE_RATE, Nat.mul_zero, Nat.zero_div, Nat.add_zero,
    Nat.sub_zero, Nat.one_mul, Nat.reduceMul, Nat.reduceSub]
  have hmin : min 320 161 = 161 := by norm_num
  rw [hmin, min_self, show (161 - 160 : ℕ) = 1 from rfl, hdrop160]
  rfl

/-- **C3 (counterexample)**: the claim describes the window search as a
partition into *non-overlapping* 10 ms windows; the code scans *overlapping*
sliding windows (stride 1).  On 10 ms of silence followed by one loud sample
(threshold `-40 dB`, i.e. linear `1/100`; no padding) the code keeps 160
samples (first active sliding window starts at sample 1) while the
non-overlapping reading keeps only the final chunk `[1]`. -/
theorem trimSilence_not_partition_cex :
    trim_silence cexBuffer ((100 : ℚ)⁻¹) 0 ≠
      trimSilenceSpec cexBuffer ((100 : ℚ)⁻¹) 0 ∧
    (trim_silence cexBuffer ((100 : ℚ)⁻¹) 0).length = 160 ∧
    (trimSilenceSpec cexBuffer ((100 : ℚ)⁻¹) 0).length = 1 := by
  refine ⟨?_, ?_, ?_⟩
  · intro h
    rw [cex_code_result, cex_spec_result] at h
    have hlen := congrArg List.length h
    simp only [List.length_append, List.length_replicate, List.length_cons,
      List.length_nil] at hlen
    omega
  · rw [cex_code_result]
    simp only [List.length_append, List.length_replicate, List.length_cons,
      List.length_nil]
  · rw [cex_spec_result]
    rfl

/- ### Model cache manager (`src/transcriber/src/model.rs`)

The filesystem is modelled as a map from paths to file sizes; the RAII
`PartFileGuard` (armed through every early-`return Err` path, disarmed only
after the final rename) appears as an explicit `guardDrop` applied on each
error exit.  Directories are not tracked (`create_dir_all` shows up only in
the event trace of `ensure_model`). -/

/-- A filesystem path, as a plain string. -/
abbrev PathStr := String

/-- The on-disk state: the size of each existing file. -/
abbrev FS := PathStr → Option ℕ

/-- Point update of the filesystem map. -/
def FS.update (fs : FS) (p : PathStr) (v : Option ℕ) : FS :=
  fun q => if q = p then v else fs q

theorem FS.update_same (fs : FS) (p : PathStr) (v : Option ℕ) :
    fs.update p v p = v := by
  simp [FS.update]

theorem FS.update_other (fs : FS) (p q : PathStr) (v : Option ℕ) (h : q ≠ p) :
    fs.update p v q = fs q := by
  simp [FS.update, h]

/-- `MAX_MODEL_BYTES` (5 GB) from `src/transcriber/src/model.rs`. -/
def MAX_MODEL_BYTES : ℕ := 5000000000

/-- `dest.with_extension(format!("bin.part.{pid}"))`: every named-model
destination ends in `.bin`, for which `with_extension("bin.part.{pid}")`
replaces `bin` by `bin.part.{pid}`, i.e. appends `.part.{pid}`. -/
def tmpPath (dest : PathStr) (pid : ℕ) : PathStr :=
  dest ++ ".part." ++ toString pid

/-- `PartFileGuard::drop`: if still armed, remove the temp file when it
exists. -/
def guardDrop (tmp : PathStr) (fs : FS) : FS :=
  if (fs tmp).isSome then fs.update tmp none else fs

/-- The relevant observable behaviour of the HTTP response in
`download_model`: whether `send()?/error_for_status()` failed, the advertised
`content_length()`, the sizes of the successfully streamed chunks, and
whether the byte stream ends in an error. -/
structure Response where
  httpErr : Bool
  contentLength : Option ℕ
  chunks : List ℕ
  streamErr : Bool

/-- The error exits of `download_model` (each a `ModelDownload`/IO error in
the source). -/
inductive DlError where
  | http
  | tooLarge
  | exceeded
  | streamFailed
  | tooSmall
  | sizeMismatch
deriving DecidableEq

/-- The `while let Some(chunk) = stream.next()` loop: accumulate
`downloaded`, aborting when the running total exceeds `MAX_MODEL_BYTES`
(checked before the chunk is written).  Returns the abort condition and the
bytes written to the temp file. -/
def streamChunks : List ℕ → ℕ → Option DlError × ℕ
  | [], written => (none, written)
  | c :: rest, written =>
      if MAX_MODEL_BYTES < written + c then (some .exceeded, written)
      else streamChunks rest (written + c)

/-- `download_model` from `src/transcriber/src/model.rs`, as a function of
the response and the filesystem.  Mirrors the source order: HTTP status,
content-length ceiling (before the temp file is created), temp-file
creation, streaming with the running-total ceiling, the 1 MB minimum, the
exact-size check (only when `total_size > 0`), and the final rename that
disarms the `PartFileGuard`; on every error exit after creation the guard
removes the temp file. -/
def download_model (pid : ℕ) (dest : PathStr) (resp : Response) (fs : FS) :
    Except DlError Unit × FS :=
  if resp.httpErr then (.error .http, fs)
  else
    let totalSize := resp.contentLength.getD 0
    if MAX_MODEL_BYTES < totalSize then (.error .tooLarge, fs)
    else
      let tmp := tmpPath dest pid
      let res := streamChunks resp.chunks 0
      let fs2 := (fs.update tmp (some 0)).update tmp (some res.2)
      match res.1 with
      | some e => (.error e, guardDrop tmp fs2)
      | none =>
          if resp.streamErr then (.error .streamFailed, guardDrop tmp fs2)
          else if res.2 < 1000000 then (.error .tooSmall, guardDrop tmp fs2)
          else if 0 < totalSize ∧ res.2 ≠ totalSize then
            (.error .sizeMismatch, guardDrop tmp fs2)
          else (.ok (), (fs2.update dest (fs2 tmp)).update tmp none)

/-- The `Model` enum with its canonical-filename mapping, from
`src/transkribo/src/config.rs` (the sibling crate's `config` module; the
`transcriber` crate re-exports the same `Model` surface).  `ensure_model`
never evaluates `filename()` on `Custom` (it matches `Custom` first), so the
`Custom` arm uses the source's `"custom-model"` fallback. -/
inductive Model where
  | tiny
  | tinyEn
  | base
  | baseEn
  | small
  | smallEn
  | medium
  | mediumEn
  | largeV2
  | largeV3
  | largeV3Turbo
  | custom (path : PathStr)
deriving DecidableEq

def Model.filename : Model → String
  | .tiny => "ggml-tiny.bin"
  | .tinyEn => "ggml-tiny.en.bin"
  | .base => "ggml-base.bin"
  | .baseEn => "ggml-base.en.bin"
  | .small => "ggml-small.bin"
  | .smallEn => "ggml-small.en.bin"
  | .medium => "ggml-medium.bin"
  | .mediumEn => "ggml-medium.en.bin"
  | .largeV2 => "ggml-large-v2.bin"
  | .largeV3 => "ggml-large-v3.bin"
  | .largeV3Turbo => "ggml-large-v3-turbo.bin"
  | .custom _ => "custom-model"

def HUGGINGFACE_BASE : String :=
  "https://huggingface.co/ggerganov/whisper.cpp/resolve/main"

/-- `cache_dir.join(&filename)`. -/
def pathJoin (dir : PathStr) (file : String) : PathStr := dir ++ "/" ++ file

inductive EnsureError where
  | modelNotFound (path : PathStr)
  | download (e : DlError)
deriving DecidableEq

/-- The I/O actions `ensure_model` can perform besides reading/writing cache
files (which the `FS` component tracks): existence checks, directory
creation, and the network fetch. -/
inductive Ev where
  | existsCheck (p : PathStr)
  | createDirAll (p : PathStr)
  | httpGet (url : String)
deriving DecidableEq

/-- `ensure_model` from `src/transcriber/src/model.rs`: custom models must
exist (no download); named models return the cached path immediately when
present, and otherwise create the cache dir and stream the download.
Returns the result, the final filesystem, and the trace of the other I/O
actions in order. -/
def ensure_model (model : Model) (cache_dir : PathStr) (pid : ℕ) (resp : Response)
    (fs : FS) : Except EnsureError PathStr × FS × List Ev :=
  match model with
  | .custom path =>
      if (fs path).isSome then (.ok path, fs, [.existsCheck path])
      else (.error (.modelNotFound path), fs, [.existsCheck path])
  | m =>
      let model_path := pathJoin cache_dir m.filename
      if (fs model_path).isSome then (.ok model_path, fs, [.existsCheck model_path])
      else
        let url := HUGGINGFACE_BASE ++ "/" ++ m.filename
        let dl := download_model pid model_path resp fs
        match dl.1 with
        | .ok _ => (.ok model_path, dl.2,
            [.existsCheck model_path, .createDirAll cache_dir, .httpGet url])
        | .error e => (.error (.download e), dl.2,
            [.existsCheck model_path, .createDirAll cache_dir, .httpGet url])

/- Lemmas about the streaming loop and temp path. -/

theorem streamChunks_none_sum (chunks : List ℕ) (w : ℕ)
    (h : (streamChunks chunks w).1 = none) :
    (streamChunks chunks w).2 = w + chunks.sum := by
  induction chunks generalizing w with
  | nil => simp [streamChunks]
  | cons c rest ih =>
      by_cases hc : MAX_MODEL_BYTES < w + c
      · simp [streamChunks, hc] at h
      · simp only [streamChunks, if_neg hc] at h ⊢
        rw [ih _ h, List.sum_cons]
        omega

theorem streamChunks_none_le (chunks : List ℕ) (w : ℕ)
    (hw : w ≤ MAX_MODEL_BYTES) (h : (streamChunks chunks w).1 = none) :
    (streamChunks chunks w).2 ≤ MAX_MODEL_BYTES := by
  induction chunks generalizing w with
  | nil => simpa [streamChunks] using hw
  | cons c rest ih =>
      by_cases hc : MAX_MODEL_BYTES < w + c
      · simp [streamChunks, hc] at h
      · simp only [streamChunks, if_neg hc] at h ⊢
        exact ih _ (by omega) h

theorem tmpPath_ne (dest : PathStr) (pid : ℕ) : tmpPath dest pid ≠ dest := by
  intro h
  have hlen := congrArg String.length h
  rw [tmpPath, String.length_append, String.length_append] at hlen
  have h6 : (".part." : String).length = 6 := rfl
  omega

/-- **C1 (amended)** (`download_model`): starting from a state with no temp
artifact, (i) on every failing path the destination is untouched and no
`.part` temp file remains (the ceiling rejection happens before the temp file
is even created), and (ii) a file appears at the final cache path only when
every size check passed: no HTTP error, advertised length within the 5 GB
ceiling, cumulative stream within the ceiling, final size at least 1 MB, and
— whenever a *nonzero* advertised length was present — final size exactly
equal to it; the cache file then holds exactly the streamed bytes and the
temp file is gone. -/
theorem download_model_checks (pid : ℕ) (dest : PathStr) (resp : Response)
    (fs : FS) (hclean : fs (tmpPath dest pid) = none) :
    (∀ e, (download_model pid dest resp fs).1 = .error e →
        (download_model pid dest resp fs).2 dest = fs dest ∧
        (download_model pid dest resp fs).2 (tmpPath dest pid) = none) ∧
    ((download_model pid dest resp fs).1 = .ok () →
        resp.httpErr = false ∧
        resp.contentLength.getD 0 ≤ MAX_MODEL_BYTES ∧
        resp.chunks.sum ≤ MAX_MODEL_BYTES ∧
        1000000 ≤ resp.chunks.sum ∧
        (0 < resp.contentLength.getD 0 →
          resp.chunks.sum = resp.contentLength.getD 0) ∧
        resp.streamErr = false ∧
        (download_model pid dest resp fs).2 dest = some resp.chunks.sum ∧
        (download_model pid dest resp fs).2 (tmpPath dest pid) = none) := by
  have hne : dest ≠ tmpPath dest pid := fun h => tmpPath_ne dest pid h.symm
  set tmp := tmpPath dest pid
  set fs2 := (fs.update tmp (some 0)).update tmp
    (some (streamChunks resp.chunks 0).2) with hfs2
  have hfs2tmp : fs2 tmp = some (streamChunks resp.chunks 0).2 :=
    FS.update_same _ _ _
  have hfs2dest : fs2 dest = fs dest := by
    rw [hfs2, FS.update_other _ _ _ _ hne, FS.update_other _ _ _ _ hne]
  have hdrop_dest : guardDrop tmp fs2 dest = fs dest := by
    rw [guardDrop, if_pos (by rw [hfs2tmp]; rfl), FS.update_other _ _ _ _ hne,
      hfs2dest]
  have hdrop_tmp : guardDrop tmp fs2 tmp = none := by
    rw [guardDrop, if_pos (by rw [hfs2tmp]; rfl), FS.update_same]
  unfold download_model
  by_cases h1 : resp.httpErr
  · rw [if_pos h1]
    exact ⟨fun e _ => ⟨rfl, hclean⟩, fun hok => by simp at hok⟩
  · rw [if_neg h1]
    by_cases h2 : MAX_MODEL_BYTES < resp.contentLength.getD 0
    · rw [if_pos h2]
      exact ⟨fun e _ => ⟨rfl, hclean⟩, fun hok => by simp at hok⟩
    · rw [if_neg h2]
      rcases hres : (streamChunks resp.chunks 0).1 with _ | e
      · simp only [hres]
        have hsum : (streamChunks resp.chunks 0).2 = resp.chunks.sum := by
          simpa using streamChunks_none_sum resp.chunks 0 hres
        by_cases h3 : resp.streamErr
        · rw [if_pos h3]
          exact ⟨fun e _ => ⟨hdrop_dest, hdrop_tmp⟩, fun hok => by simp at hok⟩
        · rw [if_neg h3]
          by_cases h4 : (streamChunks resp.chunks 0).2 < 1000000
          · rw [if_pos h4]
            exact ⟨fun e _ => ⟨hdrop_dest, hdrop_tmp⟩, fun hok => by simp at hok⟩
          · rw [if_neg h4]
            by_cases h5 : 0 < resp.contentLength.getD 0 ∧
                (streamChunks resp.chunks 0).2 ≠ resp.contentLength.getD 0
            · rw [if_pos h5]
              exact ⟨fun e _ => ⟨hdrop_dest, hdrop_tmp⟩, fun hok => by simp at hok⟩
            · rw [if_neg h5]
              refine ⟨fun e he => by simp at he, fun _ => ?_⟩
              push_neg at h5
              refine ⟨Bool.not_eq_true _ ▸ h1, le_of_not_lt h2, ?_, ?_, ?_,
                Bool.not_eq_true _ ▸ h3, ?_, ?_⟩
              · rw [← hsum]
                exact streamChunks_none_le resp.chunks 0 (by norm_num) hres
              · rw [← hsum]
                omega
              · intro hpos
                rw [← hsum]
                exact h5 hpos
              · show ((fs2.update dest (fs2 tmp)).update tmp none) dest =
                  some resp.chunks.sum
                rw [FS.update_other _ _ _ _ hne, FS.update_same, hfs2tmp, hsum]
              · show ((fs2.update dest (fs2 tmp)).update tmp none) tmp = none
                rw [FS.update_same]
      · simp only [hres]
        exact ⟨fun e _ => ⟨hdrop_dest, hdrop_tmp⟩, fun hok => by simp at hok⟩

/-- Witness for C1: a well-formed download (advertised length 2,000,000 and
two chunks summing to it) passes all checks, lands at the destination, and
leaves no temp file. -/
theorem download_model_checks_witness :
    (download_model 7 "/c/ggml-tiny.bin"
        ⟨false, some 2000000, [1500000, 500000], false⟩ (fun _ => none)).1 =
      .ok () ∧
    (download_model 7 "/c/ggml-tiny.bin"
        ⟨false, some 2000000, [1500000, 500000], false⟩ (fun _ => none)).2
        "/c/ggml-tiny.bin" = some 2000000 ∧
    (download_model 7 "/c/ggml-tiny.bin"
        ⟨false, some 2000000, [1500000, 500000], false⟩ (fun _ => none)).2
        (tmpPath "/c/ggml-tiny.bin" 7) = none := by
  have h := download_model_checks 7 "/c/ggml-tiny.bin"
    ⟨false, some 2000000, [1500000, 500000], false⟩ (fun _ => none) rfl
  have hok : (download_model 7 "/c/ggml-tiny.bin"
      ⟨false, some 2000000, [1500000, 500000], false⟩ (fun _ => none)).1 =
      .ok () := rfl
  have h2 := h.2 hok
  exact ⟨hok, by rw [h2.2.2.2.2.2.2.1]; rfl, h2.2.2.2.2.2.2.2⟩

/-- **C1 (counterexample)**: the claim "when an advertised length was
present, a final size differing from it is rejected" fails for an advertised
`Content-Length: 0`: `content_length().unwrap_or(0)` conflates it with an
absent header, `total_size > 0` is false, the mismatch check is skipped, and
a 2,000,000-byte body is accepted into the cache even though it differs from
the advertised 0. -/
theorem download_model_advertised_zero_cex :
    (Response.mk false (some 0) [2000000] false).contentLength = some 0 ∧
    (2000000 : ℕ) ≠ 0 ∧
    (download_model 42 "/c/ggml-tiny.bin"
        (Response.mk false (some 0) [2000000] false) (fun _ => none)).1 =
      .ok () ∧
    (download_model 42 "/c/ggml-tiny.bin"
        (Response.mk false (some 0) [2000000] false) (fun _ => none)).2
        "/c/ggml-tiny.bin" = some 2000000 := by
  refine ⟨rfl, by omega, rfl, rfl⟩

/-- **C2** (`ensure_model` cache hit): for every named (non-custom) model
whose canonical file is already present under the cache directory,
`ensure_model` returns exactly `cache_dir.join(filename)`, the filesystem is
unchanged, and the I/O trace is a single existence check — no directory
creation and no network fetch. -/
theorem ensureModel_cache_hit (model : Model) (cache_dir : PathStr) (pid : ℕ)
    (resp : Response) (fs : FS) (sz : ℕ)
    (hnc : ∀ p, model ≠ .custom p)
    (hhit : fs (pathJoin cache_dir model.filename) = some sz) :
    ensure_model model cache_dir pid resp fs =
      (.ok (pathJoin cache_dir model.filename), fs,
        [.existsCheck (pathJoin cache_dir model.filename)]) := by
  cases model
  case custom p => exact absurd rfl (hnc p)
  all_goals simp only [Model.filename] at hhit
  all_goals simp [ensure_model, Model.filename, hhit]

/-- Witness for C2: `Model.tiny` with `ggml-tiny.bin` already cached under
`/cache` returns that exact path with only the existence check, on an
otherwise arbitrary (here: failing) network response. -/
theorem ensureModel_cache_hit_witness :
    ensure_model Model.tiny "/cache" 1 ⟨true, none, [], false⟩
        (fun p => if p = "/cache/ggml-tiny.bin" then some 7 else none) =
      (.ok "/cache/ggml-tiny.bin",
        (fun p => if p = "/cache/ggml-tiny.bin" then some 7 else none),
        [.existsCheck "/cache/ggml-tiny.bin"]) := by
  have h := ensureModel_cache_hit Model.tiny "/cache" 1 ⟨true, none, [], false⟩
    (fun p => if p = "/cache/ggml-tiny.bin" then some 7 else none) 7
    (fun p h => by cases h) rfl
  exact h

/- ### Correctness of the binary64 rounding model -/

theorem natLog2Aux_correct : ∀ fuel n : ℕ, 1 ≤ n → n ≤ fuel →
    2 ^ natLog2Aux fuel n ≤ n ∧ n < 2 ^ (natLog2Aux fuel n + 1) := by
  intro fuel
  induction fuel with
  | zero => intro n h1 h2; omega
  | succ f ih =>
      intro n h1 h2
      by_cases hn : 2 ≤ n
      · have hd1 : 1 ≤ n / 2 := by omega
        have hd2 : n / 2 ≤ f := by omega
        obtain ⟨ih1, ih2⟩ := ih (n / 2) hd1 hd2
        simp only [natLog2Aux, if_pos hn]
        have e1 : (2 : ℕ) ^ (natLog2Aux f (n / 2) + 1) =
            2 * 2 ^ natLog2Aux f (n / 2) := by ring
        have e2 : (2 : ℕ) ^ (natLog2Aux f (n / 2) + 1 + 1) =
            4 * 2 ^ natLog2Aux f (n / 2) := by ring
        rw [e1, e2]
        rw [e1] at ih2
        omega
      · simp only [natLog2Aux, if_neg hn]
        norm_num
        omega

theorem natLog2_correct (n : ℕ) (h : 1 ≤ n) :
    2 ^ natLog2 n ≤ n ∧ n < 2 ^ (natLog2 n + 1) :=
  natLog2Aux_correct n n h le_rfl

theorem qlog2_correct (q : ℚ) (hq : 0 < q) :
    (2 : ℚ) ^ qlog2 q ≤ q ∧ q < (2 : ℚ) ^ (qlog2 q + 1) := by
  have hnum : 0 < q.num := Rat.num_pos.mpr hq
  have hn1 : 1 ≤ q.num.natAbs := Int.natAbs_pos.mpr hnum.ne'
  have hd1 : 1 ≤ q.den := q.pos
  obtain ⟨ha1, ha2⟩ := natLog2_correct q.num.natAbs hn1
  obtain ⟨hb1, hb2⟩ := natLog2_correct q.den hd1
  have hdq : (0 : ℚ) < (q.den : ℚ) := by positivity
  have hqd : q * (q.den : ℚ) = (q.num.natAbs : ℚ) := by
    have h2 : ((q.num.natAbs : ℕ) : ℚ) = ((q.num : ℤ) : ℚ) := by
      rw [Int.cast_natAbs]
      exact_mod_cast abs_of_nonneg hnum.le
    have h3 : (q.num : ℚ) = q * (q.den : ℚ) :=
      (div_eq_iff (ne_of_gt hdq)).mp (Rat.num_div_den q)
    rw [h2, ← h3]
  set a := natLog2 q.num.natAbs with hadef
  set b := natLog2 q.den with hbdef
  have hna : (2 : ℚ) ^ (a : ℤ) ≤ (q.num.natAbs : ℚ) := by
    rw [zpow_natCast]
    exact_mod_cast ha1
  have hna2 : ((q.num.natAbs : ℚ)) < (2 : ℚ) ^ ((a : ℤ) + 1) := by
    rw [show ((a : ℤ) + 1) = ((a + 1 : ℕ) : ℤ) by push_cast; ring, zpow_natCast]
    exact_mod_cast ha2
  have hdb : (2 : ℚ) ^ (b : ℤ) ≤ (q.den : ℚ) := by
    rw [zpow_natCast]
    exact_mod_cast hb1
  have hdb2 : ((q.den : ℚ)) < (2 : ℚ) ^ ((b : ℤ) + 1) := by
    rw [show ((b : ℤ) + 1) = ((b + 1 : ℕ) : ℤ) by push_cast; ring, zpow_natCast]
    exact_mod_cast hb2
  have hupper : q < (2 : ℚ) ^ ((a : ℤ) - b + 1) := by
    rw [← mul_lt_mul_right hdq, hqd]
    calc (q.num.natAbs : ℚ) < (2 : ℚ) ^ ((a : ℤ) + 1) := hna2
      _ = (2 : ℚ) ^ ((a : ℤ) - b + 1) * (2 : ℚ) ^ (b : ℤ) := by
          rw [← zpow_add₀ (by norm_num : (2 : ℚ) ≠ 0)]
          congr 1
          ring
      _ ≤ (2 : ℚ) ^ ((a : ℤ) - b + 1) * (q.den : ℚ) := by
          exact mul_le_mul_of_nonneg_left hdb (by positivity)
  have hlower : (2 : ℚ) ^ ((a : ℤ) - b - 1) < q := by
    rw [← mul_lt_mul_right hdq, hqd]
    calc (2 : ℚ) ^ ((a : ℤ) - b - 1) * (q.den : ℚ)
        < (2 : ℚ) ^ ((a : ℤ) - b - 1) * (2 : ℚ) ^ ((b : ℤ) + 1) := by
          exact mul_lt_mul_of_pos_left hdb2 (by positivity)
      _ = (2 : ℚ) ^ (a : ℤ) := by
          rw [← zpow_add₀ (by norm_num : (2 : ℚ) ≠ 0)]
          congr 1
          ring
      _ ≤ (q.num.natAbs : ℚ) := hna
  rw [qlog2]
  simp only [← hadef, ← hbdef]
  by_cases hc : (2 : ℚ) ^ ((a : ℤ) - b) ≤ q
  · rw [if_pos hc]
    exact ⟨hc, hupper⟩
  · rw [if_neg hc]
    constructor
    · rw [show (a : ℤ) - b - 1 = a - b - 1 by ring] at hlower
      exact le_of_lt hlower
    · rw [show (a : ℤ) - b - 1 + 1 = a - b by ring]
      exact lt_of_not_le hc

theorem qlog2_eq_of (q : ℚ) (e : ℤ) (hq : 0 < q) (h1 : (2 : ℚ) ^ e ≤ q)
    (h2 : q < (2 : ℚ) ^ (e + 1)) : qlog2 q = e := by
  obtain ⟨g1, g2⟩ := qlog2_correct q hq
  by_contra hne
  rcases lt_or_gt_of_ne hne with hlt | hgt
  · have hle : (2 : ℚ) ^ (qlog2 q + 1) ≤ (2 : ℚ) ^ e :=
      zpow_le_zpow_right₀ one_le_two (by omega)
    exact absurd (lt_of_lt_of_le g2 (hle.trans h1)) (lt_irrefl q)
  · have hle : (2 : ℚ) ^ (e + 1) ≤ (2 : ℚ) ^ (qlog2 q) :=
      zpow_le_zpow_right₀ one_le_two (by omega)
    exact absurd (lt_of_lt_of_le h2 (hle.trans g1)) (lt_irrefl q)

/-- Evaluation rule for `roundF64` at a positive input whose binade is known:
for `2^e ≤ q < 2^(e+1)` in the normal range the mantissa is rounded at scale
`2^(e-52)`. -/
theorem roundF64_eval (q : ℚ) (e : ℤ) (hq : 0 < q) (h1 : (2 : ℚ) ^ e ≤ q)
    (h2 : q < (2 : ℚ) ^ (e + 1)) (he : -1022 ≤ e) :
    roundF64 q = (roundHalfEven (q * (2 : ℚ) ^ (52 - e)) : ℚ) * (2 : ℚ) ^ (e - 52) := by
  rw [roundF64, if_pos hq, roundPosF64, qlog2_eq_of q e hq h1 h2]
  rw [show max (e - 52) (-1074) = e - 52 from max_eq_left (by omega)]
  rw [show -(e - 52) = 52 - e by ring]

theorem roundHalfEven_nonneg (q : ℚ) (hq : 0 ≤ q) : 0 ≤ roundHalfEven q := by
  have hf : (0 : ℤ) ≤ ⌊q⌋ := Int.floor_nonneg.mpr hq
  rw [roundHalfEven]
  split_ifs <;> omega

theorem roundF64_nonpos (q : ℚ) (hq : q ≤ 0) : roundF64 q ≤ 0 := by
  rw [roundF64, if_neg (not_lt.mpr hq)]
  by_cases hneg : q < 0
  · rw [if_pos hneg, roundPosF64]
    have h1 : (0 : ℚ) ≤ -q * (2 : ℚ) ^ (-(max (qlog2 (-q) - 52) (-1074))) := by
      have : (0 : ℚ) ≤ -q := by linarith
      positivity
    have h2 : (0 : ℚ) ≤ (roundHalfEven (-q * (2 : ℚ) ^ (-(max (qlog2 (-q) - 52) (-1074)))) : ℚ) := by
      exact_mod_cast roundHalfEven_nonneg _ h1
    have h3 : (0 : ℚ) < (2 : ℚ) ^ (max (qlog2 (-q) - 52) (-1074)) := by positivity
    nlinarith
  · rw [if_neg hneg]

theorem roundF64_zero : roundF64 0 = 0 := by
  rw [roundF64]
  norm_num

/- ### Timestamp formatting (`src/transkribo/src/types.rs`) -/

/-- Rust's saturating `f64 as u64` cast: NaN to `0`, truncation toward zero,
clamped to `[0, 2^64 - 1]`.  (Truncation and floor agree after the clamp at
zero.) -/
def f64ToU64 : F64 → ℕ
  | .nan => 0
  | .val q => ((max ⌊q⌋ 0).toNat).min (2 ^ 64 - 1)

/-- `seconds * 1000.0` in binary64 (NaN propagates). -/
def mul1000 : F64 → F64
  | .nan => .nan
  | .val q => .val (roundF64 (q * 1000))

/-- `let total_ms = (seconds * 1000.0) as u64;` shared by both formatters. -/
def totalMs (seconds : F64) : ℕ := f64ToU64 (mul1000 seconds)

/-- Rust's `{:02}` formatting. -/
def pad2 (n : ℕ) : String := if n < 10 then "0" ++ toString n else toString n

/-- Rust's `{:03}` formatting. -/
def pad3 (n : ℕ) : String :=
  if n < 10 then "00" ++ toString n
  else if n < 100 then "0" ++ toString n
  else toString n

/-- The division/modulo decomposition and `format!("{h:02}:{m:02}:{s:02},{ms:03}")`
of `format_srt_time`. -/
def srtTimeOfMs (total_ms : ℕ) : String :=
  pad2 (total_ms / 3600000) ++ ":" ++ pad2 (total_ms % 3600000 / 60000) ++ ":" ++
    pad2 (total_ms % 60000 / 1000) ++ "," ++ pad3 (total_ms % 1000)

/-- Same decomposition with the `.` millisecond separator of `format_vtt_time`. -/
def vttTimeOfMs (total_ms : ℕ) : String :=
  pad2 (total_ms / 3600000) ++ ":" ++ pad2 (total_ms % 3600000 / 60000) ++ ":" ++
    pad2 (total_ms % 60000 / 1000) ++ "." ++ pad3 (total_ms % 1000)

/-- `format_srt_time` from `src/transkribo/src/types.rs`. -/
def format_srt_time (seconds : F64) : String := srtTimeOfMs (totalMs seconds)

/-- `format_vtt_time` from `src/transkribo/src/types.rs`. -/
def format_vtt_time (seconds : F64) : String := vttTimeOfMs (totalMs seconds)

/- Concrete evaluations of the double pipeline. -/

theorem roundF64_lit_3661_999 :
    roundF64 ((3661999 : ℚ) / 1000) = 1006602620351021 / 274877906944 := by
  rw [roundF64_eval ((3661999 : ℚ) / 1000) 11 (by norm_num) (by norm_num)
    (by norm_num) (by norm_num)]
  norm_num [roundHalfEven]

theorem roundF64_prod_3661_999 :
    roundF64 ((1006602620351021 / 274877906944 : ℚ) * 1000) = 3661999 := by
  rw [roundF64_eval _ 21 (by norm_num) (by norm_num) (by norm_num) (by norm_num)]
  norm_num [roundHalfEven]

theorem totalMs_3661_999 : totalMs (F64.ofDecimal 3661999 1000) = 3661999 := by
  have hcast : ((3661999 : ℤ) : ℚ) / ((1000 : ℕ) : ℚ) = (3661999 : ℚ) / 1000 := by
    norm_num
  simp only [totalMs, F64.ofDecimal, mul1000, f64ToU64, hcast,
    roundF64_lit_3661_999, roundF64_prod_3661_999]
  norm_num
  decide

theorem totalMs_zero : totalMs (F64.ofDecimal 0 1) = 0 := by
  have hcast : ((0 : ℤ) : ℚ) / ((1 : ℕ) : ℚ) = 0 := by norm_num
  simp only [totalMs, F64.ofDecimal, mul1000, f64ToU64, hcast, roundF64_zero,
    zero_mul]
  norm_num

/-- **C6** (`format_srt_time` / `format_vtt_time`): total milliseconds are the
truncated binary64 product `seconds * 1000.0` and are decomposed by
division/modulo by 3,600,000 / 60,000 / 1,000 with 2/2/2/3-digit zero
padding; the decimal literal `3661.999` (whose nearest double times `1000.0`
rounds to exactly `3661999`) formats as `01:01:01,999` (SRT, comma) and
`01:01:01.999` (VTT, period), and `0.0` as `00:00:00,000` / `00:00:00.000`. -/
theorem format_time_examples :
    format_srt_time (F64.ofDecimal 3661999 1000) = "01:01:01,999" ∧
    format_vtt_time (F64.ofDecimal 3661999 1000) = "01:01:01.999" ∧
    format_srt_time (F64.ofDecimal 0 1) = "00:00:00,000" ∧
    format_vtt_time (F64.ofDecimal 0 1) = "00:00:00.000" := by
  refine ⟨?_, ?_, ?_, ?_⟩
  · simp only [format_srt_time, totalMs_3661_999]
    rfl
  · simp only [format_vtt_time, totalMs_3661_999]
    rfl
  · simp only [format_srt_time, totalMs_zero]
    rfl
  · simp only [format_vtt_time, totalMs_zero]
    rfl

/-- **C10** (`format_srt_time` / `format_vtt_time` totality and saturation):
the formatters are total — a negative or NaN input casts to `0` and formats
as `00:00:00,000` / `00:00:00.000`, and an input whose binary64 millisecond
product reaches `2^64` saturates the cast at `u64::MAX = 2^64 - 1` instead of
overflowing. -/
theorem format_time_total_saturating :
    (∀ q : ℚ, q < 0 →
        format_srt_time (F64.val q) = "00:00:00,000" ∧
        format_vtt_time (F64.val q) = "00:00:00.000") ∧
    (format_srt_time F64.nan = "00:00:00,000" ∧
      format_vtt_time F64.nan = "00:00:00.000") ∧
    (∀ q : ℚ, (2 : ℚ) ^ (64 : ℕ) ≤ roundF64 (q * 1000) →
        totalMs (F64.val q) = 2 ^ 64 - 1) := by
  have hneg : ∀ q : ℚ, q < 0 → totalMs (F64.val q) = 0 := by
    intro q hq
    have h1 : roundF64 (q * 1000) ≤ 0 := roundF64_nonpos _ (by nlinarith)
    have h2 : ⌊roundF64 (q * 1000)⌋ ≤ 0 := Int.floor_nonpos h1
    simp only [totalMs, mul1000, f64ToU64]
    rw [max_eq_right h2]
    rfl
  refine ⟨fun q hq => ⟨?_, ?_⟩, ⟨rfl, rfl⟩, fun q hq => ?_⟩
  · simp only [format_srt_time, hneg q hq]
    rfl
  · simp only [format_vtt_time, hneg q hq]
    rfl
  · simp only [totalMs, mul1000, f64ToU64]
    have h1 : ((2 : ℤ) ^ 64 : ℤ) ≤ ⌊roundF64 (q * 1000)⌋ := by
      apply Int.le_floor.mpr
      push_cast
      exact hq
    have h2 : max ⌊roundF64 (q * 1000)⌋ 0 = ⌊roundF64 (q * 1000)⌋ :=
      max_eq_left (le_trans (by positivity) h1)
    rw [h2]
    have h3 : 2 ^ 64 ≤ (⌊roundF64 (q * 1000)⌋).toNat := by
      rw [Int.le_toNat (le_trans (by positivity) h1)]
      exact_mod_cast h1
    show min ((⌊roundF64 (q * 1000)⌋).toNat) (2 ^ 64 - 1) = 2 ^ 64 - 1
    rw [min_eq_right (by omega)]

/-- Witness for C10: `-1.0` formats as `00:00:00,000`, and `2^70` seconds
(whose millisecond count `1000·2^70` is representable exactly and exceeds
`2^64`) saturates at `u64::MAX`. -/
theorem format_time_total_saturating_witness :
    format_srt_time (F64.val (-1)) = "00:00:00,000" ∧
    totalMs (F64.val ((2 : ℚ) ^ 70)) = 2 ^ 64 - 1 := by
  constructor
  · exact (format_time_total_saturating.1 (-1) (by norm_num)).1
  · apply format_time_total_saturating.2.2
    rw [roundF64_eval _ 79 (by positivity) (by norm_num) (by norm_num)
      (by norm_num)]
    norm_num [roundHalfEven]

/- ### Kernel-computable string helpers

Core `String.trim` / `String.startsWith` are implemented with well-founded
recursion over byte positions and do not reduce in the kernel, so the
embedding uses structurally recursive equivalents over the character list:
`strTrim` models Rust `str::trim` (ASCII whitespace) and `strStartsWith`
models Rust `str::starts_with`. -/

def listPrefixEq : List Char → List Char → Bool
  | [], _ => true
  | _ :: _, [] => false
  | p :: ps, c :: cs => p == c && listPrefixEq ps cs

/-- Rust `str::starts_with` (prefix test on the character sequence). -/
def strStartsWith (s pat : String) : Bool := listPrefixEq pat.data s.data

/-- Rust `str::trim`: strip leading and trailing whitespace. -/
def strTrim (s : String) : String :=
  ⟨((s.data.dropWhile Char.isWhitespace).reverse.dropWhile
      Char.isWhitespace).reverse⟩

/- ### URL validation (`src/transkribo/src/download.rs`) -/

/-- `validate_url` from `src/transkribo/src/download.rs`: trim, then accept
exactly the strings starting with `https://` or `http://`; everything else
gets a `Download` error carrying the trimmed input. -/
def validate_url (url : String) : Except String Unit :=
  let trimmed := strTrim url
  if strStartsWith trimmed "https://" || strStartsWith trimmed "http://" then
    .ok ()
  else
    .error ("invalid URL (must start with http:// or https://): " ++ trimmed)

/-- **C9** (`validate_url`): run before yt-dlp is ever invoked
(`download_audio` starts with `validate_url(url)?`), the validation accepts
precisely the strings whose trimmed form starts with `http://` or
`https://`; in particular it accepts `https://host/path` and
`http://host/path` and rejects `file:///etc/passwd`, `ftp://host`,
`$(curl evil.com)` and a leading `|`, each with a download error. -/
theorem validate_url_spec :
    (∀ url : String,
        (validate_url url = .ok () ↔
          (strStartsWith (strTrim url) "https://" = true ∨
            strStartsWith (strTrim url) "http://" = true))) ∧
    validate_url "https://host/path" = .ok () ∧
    validate_url "http://host/path" = .ok () ∧
    validate_url "file:///etc/passwd" =
      .error "invalid URL (must start with http:// or https://): file:///etc/passwd" ∧
    validate_url "ftp://host" =
      .error "invalid URL (must start with http:// or https://): ftp://host" ∧
    validate_url "$(curl evil.com)" =
      .error "invalid URL (must start with http:// or https://): $(curl evil.com)" ∧
    validate_url "| cat /etc/passwd" =
      .error "invalid URL (must start with http:// or https://): | cat /etc/passwd" := by
  refine ⟨fun url => ?_, rfl, rfl, rfl, rfl, rfl, rfl⟩
  unfold validate_url
  by_cases h : (strStartsWith (strTrim url) "https://" ||
      strStartsWith (strTrim url) "http://") = true
  · rw [if_pos h]
    rw [Bool.or_eq_true] at h
    exact ⟨fun _ => h, fun _ => rfl⟩
  · rw [if_neg h]
    rw [Bool.or_eq_true] at h
    constructor
    · intro hc
      exact Except.noConfusion hc
    · intro hc
      exact absurd hc h

/- ### Transcript data model and SRT rendering (`src/transkribo/src/types.rs`) -/

/-- `Word` from `src/transkribo/src/types.rs` (float fields as modelled
binary64 values; `end` is a Lean keyword, hence `end_`). -/
structure Word where
  text : String
  start : F64
  end_ : F64
  probability : F64
deriving DecidableEq

/-- `Segment` from `src/transkribo/src/types.rs`. -/
structure Segment where
  start : F64
  end_ : F64
  text : String
  speaker_turn : Bool
  no_speech_probability : F64
  words : Option (List Word)
deriving DecidableEq

/-- `Transcript` from `src/transkribo/src/types.rs`. -/
structure Transcript where
  segments : List Segment
  language : String
  duration : F64
  model : String
  source_url : Option String
  source_title : Option String
deriving DecidableEq

/-- `Transcript::to_srt` from `src/transkribo/src/types.rs`: for each
segment, the 1-based index line, the `start --> end` line in SRT time
format, the trimmed text, and a blank line. -/
def Transcript.to_srt (t : Transcript) : String :=
  String.join (t.segments.enum.map (fun p =>
    toString (p.1 + 1) ++ "\n" ++ format_srt_time p.2.start ++ " --> " ++
      format_srt_time p.2.end_ ++ "\n" ++ strTrim p.2.text ++ "\n\n"))

/- Concrete millisecond values for the C7 example times. -/

theorem totalMs_2_5 : totalMs (F64.ofDecimal 25 10) = 2500 := by
  have hcast : ((25 : ℤ) : ℚ) / ((10 : ℕ) : ℚ) = (5 : ℚ) / 2 := by norm_num
  have hlit : roundF64 ((5 : ℚ) / 2) = 5 / 2 := by
    rw [roundF64_eval _ 1 (by norm_num) (by norm_num) (by norm_num) (by norm_num)]
    norm_num [roundHalfEven]
  have hprod : roundF64 ((5 : ℚ) / 2 * 1000) = 2500 := by
    rw [roundF64_eval _ 11 (by norm_num) (by norm_num) (by norm_num) (by norm_num)]
    norm_num [roundHalfEven]
  simp only [totalMs, F64.ofDecimal, mul1000, f64ToU64, hcast, hlit, hprod]
  norm_num
  decide

theorem totalMs_3 : totalMs (F64.ofDecimal 3 1) = 3000 := by
  have hcast : ((3 : ℤ) : ℚ) / ((1 : ℕ) : ℚ) = (3 : ℚ) := by norm_num
  have hlit : roundF64 (3 : ℚ) = 3 := by
    rw [roundF64_eval _ 1 (by norm_num) (by norm_num) (by norm_num) (by norm_num)]
    norm_num [roundHalfEven]
  have hprod : roundF64 ((3 : ℚ) * 1000) = 3000 := by
    rw [roundF64_eval _ 11 (by norm_num) (by norm_num) (by norm_num) (by norm_num)]
    norm_num [roundHalfEven]
  simp only [totalMs, F64.ofDecimal, mul1000, f64ToU64, hcast, hlit, hprod]
  norm_num
  decide

theorem totalMs_5_5 : totalMs (F64.ofDecimal 55 10) = 5500 := by
  have hcast : ((55 : ℤ) : ℚ) / ((10 : ℕ) : ℚ) = (11 : ℚ) / 2 := by norm_num
  have hlit : roundF64 ((11 : ℚ) / 2) = 11 / 2 := by
    rw [roundF64_eval _ 2 (by norm_num) (by norm_num) (by norm_num) (by norm_num)]
    norm_num [roundHalfEven]
  have hprod : roundF64 ((11 : ℚ) / 2 * 1000) = 5500 := by
    rw [roundF64_eval _ 12 (by norm_num) (by norm_num) (by norm_num) (by norm_num)]
    norm_num [roundHalfEven]
  simp only [totalMs, F64.ofDecimal, mul1000, f64ToU64, hcast, hlit, hprod]
  norm_num
  decide

/-- **C7** (`Transcript::to_srt`): an empty segment sequence renders as the
empty string (no header), and the two-segment transcript
`[0.0–2.5s "Hello world."]`, `[3.0–5.5s "How are you?"]` renders exactly as
`1\n00:00:00,000 --> 00:00:02,500\nHello world.\n\n2\n00:00:03,000 -->
00:00:05,500\nHow are you?\n\n` — 1-based sequential indices, SRT comma time
lines, trimmed text, trailing blank line per segment. -/
theorem to_srt_example :
    Transcript.to_srt
      { segments := [], language := "en", duration := F64.ofDecimal 0 1,
        model := "tiny", source_url := none, source_title := none } = "" ∧
    Transcript.to_srt
      { segments :=
          [{ start := F64.ofDecimal 0 1, end_ := F64.ofDecimal 25 10,
             text := " Hello world.", speaker_turn := false,
             no_speech_probability := F64.ofDecimal 1 10, words := none },
           { start := F64.ofDecimal 3 1, end_ := F64.ofDecimal 55 10,
             text := " How are you?", speaker_turn := true,
             no_speech_probability := F64.ofDecimal 1 20, words := none }],
        language := "en", duration := F64.ofDecimal 55 10,
        model := "large-v3", source_url := none, source_title := none } =
      "1\n00:00:00,000 --> 00:00:02,500\nHello world.\n\n2\n00:00:03,000 --> 00:00:05,500\nHow are you?\n\n" := by
  have hf0 : format_srt_time (F64.ofDecimal 0 1) = "00:00:00,000" := by
    simp only [format_srt_time, totalMs_zero]
    rfl
  have hf25 : format_srt_time (F64.ofDecimal 25 10) = "00:00:02,500" := by
    simp only [format_srt_time, totalMs_2_5]
    rfl
  have hf3 : format_srt_time (F64.ofDecimal 3 1) = "00:00:03,000" := by
    simp only [format_srt_time, totalMs_3]
    rfl
  have hf55 : format_srt_time (F64.ofDecimal 55 10) = "00:00:05,500" := by
    simp only [format_srt_time, totalMs_5_5]
    rfl
  constructor
  · rfl
  · simp only [Transcript.to_srt, List.enum, List.enumFrom, List.map,
      String.join, hf0, hf25, hf3, hf55]
    rfl

/- ### JSON serialization (`Transcript::to_json` / `to_json_pretty`)

`to_json` and `to_json_pretty` both build the same serde data tree from the
derived `Serialize` impls (field names exactly as declared in
`src/transkribo/src/types.rs`) and differ only in the whitespace of the
rendered string, so both are modelled as the tree itself.  JSON has no NaN
literal: serde_json prints a non-finite float as `null`, and deserializing
`null` into a float field fails — the model mirrors both. -/

/-- The serde_json data model. -/
inductive Json where
  | null : Json
  | bool (b : Bool) : Json
  | num (q : ℚ) : Json
  | str (s : String) : Json
  | arr (elems : List Json) : Json
  | obj (fields : List (String × Json)) : Json

/-- Serialize a float: its exact value as a JSON number, or `null` for NaN
(serde_json writes non-finite floats as `null`). -/
def jsonOfF64 : F64 → Json
  | .val q => .num q
  | .nan => .null

/-- Serialize `Option<String>` (serde: `None` ↦ `null`). -/
def jsonOfOptStr : Option String → Json
  | none => .null
  | some s => .str s

def Word.toJsonTree (w : Word) : Json :=
  .obj [("text", .str w.text), ("start", jsonOfF64 w.start),
    ("end", jsonOfF64 w.end_), ("probability", jsonOfF64 w.probability)]

/-- Serialize `Option<Vec<Word>>`. -/
def jsonOfWords : Option (List Word) → Json
  | none => .null
  | some ws => .arr (ws.map Word.toJsonTree)

def Segment.toJsonTree (s : Segment) : Json :=
  .obj [("start", jsonOfF64 s.start), ("end", jsonOfF64 s.end_),
    ("text", .str s.text), ("speaker_turn", .bool s.speaker_turn),
    ("no_speech_probability", jsonOfF64 s.no_speech_probability),
    ("words", jsonOfWords s.words)]

def Transcript.toJsonTree (t : Transcript) : Json :=
  .obj [("segments", .arr (t.segments.map Segment.toJsonTree)),
    ("language", .str t.language), ("duration", jsonOfF64 t.duration),
    ("model", .str t.model), ("source_url", jsonOfOptStr t.source_url),
    ("source_title", jsonOfOptStr t.source_title)]

/-- `Transcript::to_json` (compact rendering of the tree). -/
def Transcript.to_json (t : Transcript) : Json := t.toJsonTree

/-- `Transcript::to_json_pretty` (pretty rendering of the same tree). -/
def Transcript.to_json_pretty (t : Transcript) : Json := t.toJsonTree

/-- Structural effectful map over a list (equivalent to `List.mapM` for
`Option`, but with directly usable equations). -/
def optMapList {α β : Type} (f : α → Option β) : List α → Option (List β)
  | [] => some []
  | x :: xs => do
      let y ← f x
      let ys ← optMapList f xs
      some (y :: ys)

/-- Field lookup of the derived `Deserialize` impls. -/
def getField (fields : List (String × Json)) (name : String) : Option Json :=
  (fields.find? (fun f => decide (f.1 = name))).map (fun f => f.2)

/-- Deserialize a float field: only a JSON number is accepted (`null` — a
serialized NaN — is a type error for a float field). -/
def asF64 : Json → Option F64
  | .num q => some (.val q)
  | _ => none

def asStr : Json → Option String
  | .str s => some s
  | _ => none

def asBool : Json → Option Bool
  | .bool b => some b
  | _ => none

def asOptStr : Json → Option (Option String)
  | .null => some none
  | .str s => some (some s)
  | _ => none

def Word.fromJson : Json → Option Word
  | .obj fields => do
      let text ← getField fields "text" >>= asStr
      let start ← getField fields "start" >>= asF64
      let end_ ← getField fields "end" >>= asF64
      let probability ← getField fields "probability" >>= asF64
      some { text := text, start := start, end_ := end_,
             probability := probability }
  | _ => none

def wordsFromJson : Json → Option (Option (List Word))
  | .null => some none
  | .arr elems => (optMapList Word.fromJson elems).map some
  | _ => none

def Segment.fromJson : Json → Option Segment
  | .obj fields => do
      let start ← getField fields "start" >>= asF64
      let end_ ← getField fields "end" >>= asF64
      let text ← getField fields "text" >>= asStr
      let speaker_turn ← getField fields "speaker_turn" >>= asBool
      let nsp ← getField fields "no_speech_probability" >>= asF64
      let words ← getField fields "words" >>= wordsFromJson
      some { start := start, end_ := end_, text := text,
             speaker_turn := speaker_turn, no_speech_probability := nsp,
             words := words }
  | _ => none

def segmentsFromJson : Json → Option (List Segment)
  | .arr elems => optMapList Segment.fromJson elems
  | _ => none

def Transcript.fromJson : Json → Option Transcript
  | .obj fields => do
      let segments ← getField fields "segments" >>= segmentsFromJson
      let language ← getField fields "language" >>= asStr
      let duration ← getField fields "duration" >>= asF64
      let model ← getField fields "model" >>= asStr
      let source_url ← getField fields "source_url" >>= asOptStr
      let source_title ← getField fields "source_title" >>= asOptStr
      some { segments := segments, language := language,
             duration := duration, model := model, source_url := source_url,
             source_title := source_title }
  | _ => none

/-- A float value is finite (not NaN); only finite floats survive the JSON
round trip. -/
def F64.finite : F64 → Bool
  | .nan => false
  | .val _ => true

def Word.finiteW (w : Word) : Bool :=
  w.start.finite && w.end_.finite && w.probability.finite

def Segment.finiteS (s : Segment) : Bool :=
  s.start.finite && s.end_.finite && s.no_speech_probability.finite &&
    (match s.words with
      | none => true
      | some ws => ws.all Word.finiteW)

def Transcript.finiteT (t : Transcript) : Bool :=
  t.duration.finite && t.segments.all Segment.finiteS

/- Round-trip lemmas for the JSON tree. -/

theorem asF64_jsonOfF64 (v : F64) (h : v.finite = true) :
    asF64 (jsonOfF64 v) = some v := by
  cases v with
  | nan => simp [F64.finite] at h
  | val q => rfl

theorem asOptStr_jsonOfOptStr (o : Option String) :
    asOptStr (jsonOfOptStr o) = some o := by
  cases o <;> rfl

theorem word_roundtrip (w : Word) (h : w.finiteW = true) :
    Word.fromJson w.toJsonTree = some w := by
  rw [Word.finiteW, Bool.and_eq_true, Bool.and_eq_true] at h
  obtain ⟨⟨hs, he⟩, hp⟩ := h
  simp [Word.toJsonTree, Word.fromJson, getField, List.find?, asStr,
    asF64_jsonOfF64 _ hs, asF64_jsonOfF64 _ he, asF64_jsonOfF64 _ hp]

theorem words_roundtrip (ws : List Word) (h : ws.all Word.finiteW = true) :
    optMapList Word.fromJson (ws.map Word.toJsonTree) = some ws := by
  induction ws with
  | nil => rfl
  | cons w rest ih =>
      rw [List.all_cons, Bool.and_eq_true] at h
      simp [optMapList, word_roundtrip w h.1, ih h.2]

theorem wordsFromJson_jsonOfWords (ws : Option (List Word))
    (h : (match ws with
           | none => true
           | some l => l.all Word.finiteW) = true) :
    wordsFromJson (jsonOfWords ws) = some ws := by
  cases ws with
  | none => rfl
  | some l => simp [jsonOfWords, wordsFromJson, words_roundtrip l h]

theorem segment_roundtrip (s : Segment) (h : s.finiteS = true) :
    Segment.fromJson s.toJsonTree = some s := by
  rw [Segment.finiteS, Bool.and_eq_true, Bool.and_eq_true,
    Bool.and_eq_true] at h
  obtain ⟨⟨⟨hs, he⟩, hn⟩, hw⟩ := h
  simp [Segment.toJsonTree, Segment.fromJson, getField, List.find?, asStr,
    asBool, asF64_jsonOfF64 _ hs, asF64_jsonOfF64 _ he, asF64_jsonOfF64 _ hn,
    wordsFromJson_jsonOfWords s.words hw]

theorem segments_roundtrip (segs : List Segment)
    (h : segs.all Segment.finiteS = true) :
    optMapList Segment.fromJson (segs.map Segment.toJsonTree) = some segs := by
  induction segs with
  | nil => rfl
  | cons s rest ih =>
      rw [List.all_cons, Bool.and_eq_true] at h
      simp [optMapList, segment_roundtrip s h.1, ih h.2]

/-- **C8 (amended)** (`to_json` / `to_json_pretty` round trip): for every
Transcript whose float fields are all finite, serializing (compact or
pretty — both produce the same serde tree, differing only in whitespace)
and deserializing reproduces an equal value, with no field renaming beyond
the data model's own field names.  A transcript containing a non-finite
float does not round-trip: JSON has no NaN literal, serde_json serializes
the field as `null`, and deserialization of `null` into a float field
fails. -/
theorem transcript_json_roundtrip :
    ∀ t : Transcript, t.finiteT = true →
      Transcript.fromJson t.to_json = some t ∧
      Transcript.fromJson t.to_json_pretty = some t := by
  intro t h
  rw [Transcript.finiteT, Bool.and_eq_true] at h
  obtain ⟨hd, hsegs⟩ := h
  have hmain : Transcript.fromJson t.toJsonTree = some t := by
    simp [Transcript.toJsonTree, Transcript.fromJson, getField, List.find?,
      asStr, segmentsFromJson, segments_roundtrip t.segments hsegs,
      asF64_jsonOfF64 _ hd, asOptStr_jsonOfOptStr]
  exact ⟨hmain, hmain⟩

/-- Witness for C8: a one-segment transcript with word timestamps
round-trips through the JSON tree unchanged. -/
theorem transcript_json_roundtrip_witness :
    Transcript.fromJson
      (Transcript.to_json
        { segments :=
            [{ start := F64.val 0, end_ := F64.val 1, text := "hi",
               speaker_turn := false, no_speech_probability := F64.val 0,
               words := some [{ text := "hi", start := F64.val 0,
                                end_ := F64.val 1,
                                probability := F64.val (9 / 10) }] }],
          language := "en", duration := F64.val 1, model := "tiny",
          source_url := some "https://example.com/video",
          source_title := some "Test Video" }) =
      some
        { segments :=
            [{ start := F64.val 0, end_ := F64.val 1, text := "hi",
               speaker_turn := false, no_speech_probability := F64.val 0,
               words := some [{ text := "hi", start := F64.val 0,
                                end_ := F64.val 1,
                                probability := F64.val (9 / 10) }] }],
          language := "en", duration := F64.val 1, model := "tiny",
          source_url := some "https://example.com/video",
          source_title := some "Test Video" } := by
  refine (transcript_json_roundtrip _ ?_).1
  rfl

/-- A transcript whose duration is NaN. -/
def nanTranscript : Transcript :=
  { segments := [], language := "en", duration := F64.nan, model := "tiny",
    source_url := none, source_title := none }

/-- **C8 (counterexample)**: the round-trip law fails on a Transcript with a
NaN float field — `duration = NaN` serializes as `null` (JSON has no NaN)
and deserialization then fails, so "for every Transcript value" is too
strong. -/
theorem transcript_json_nan_cex :
    Transcript.fromJson (Transcript.to_json nanTranscript) = none ∧
    Transcript.fromJson (Transcript.to_json nanTranscript) ≠
      some nanTranscript := by
  have h : Transcript.fromJson (Transcript.to_json nanTranscript) = none := rfl
  refine ⟨h, ?_⟩
  rw [h]
  exact fun hc => Option.noConfusion hc
